import Mathlib

/-!
# Verification of the NotionFolderIterator sync engine

A shallow embedding of `src/NotionFolderIterator.py`: the text chunker and
block batcher of `append_text_block`, the external-file block of
`append_file_block`, and the recursive directory walk of
`sync_folder_to_notion`, together with proofs of the behavioural properties
the design document states about them.

Python strings are modelled as `List Char` (a Python `str` is a sequence of
code points; slicing is `drop`/`take`), file names as `String`.  The Notion
client is modelled as an oracle `Nat → Bool` deciding, per remote call (in
call order), whether the call succeeds; a run produces the trace of attempted
remote calls.  An uncaught exception (the only one possible in the engine is
a failing `os.listdir` on an existing directory) is modelled by an abort flag
that propagates outward, matching Python exception propagation.
-/

namespace NotionFolderIterator

/-! ## Python string / path primitives -/

/-- Python `range(start, stop, step)` for a positive step: CPython computes the
length as `(stop - start + step - 1) // step` (0 when `start ≥ stop`) and the
elements as `start + i * step`.  `step = 0` raises in Python and never occurs
here; we return `[]` for totality. -/
def pyRange (start stop step : Nat) : List Nat :=
  if step = 0 then []
  else (List.range ((stop - start + step - 1) / step)).map (fun i => start + i * step)

/-- The slice comprehension `[l[i:i+size] for i in range(0, len(l), size)]`
(used at line 71 for character chunks and at lines 92-93 for block batches). -/
def pyChunks {α : Type} (l : List α) (size : Nat) : List (List α) :=
  (pyRange 0 l.length size).map (fun i => (l.drop i).take size)

/-- Python `item.startswith('.')` (line 159). -/
def startsWithDot (s : String) : Bool :=
  match s.data with
  | [] => false
  | c :: _ => c == '.'

/-- Index of the last `'.'` in a list of characters, if any. -/
def rfindDot : List Char → Option Nat
  | [] => none
  | c :: rest =>
      match rfindDot rest with
      | some i => some (i + 1)
      | none => if c == '.' then some 0 else none

/-- Python `os.path.splitext` on a bare file name (no separators): split at the
last `'.'` unless every character before it is itself a `'.'` (CPython skips
leading dots, so `".bashrc"` and `"..txt"` have no extension). -/
def splitext (s : String) : String × String :=
  match rfindDot s.data with
  | none => (s, "")
  | some i =>
      if (s.data.take i).all (fun c => c == '.') then (s, "")
      else (String.mk (s.data.take i), String.mk (s.data.drop i))

/-- Python `str.lower`, restricted to the ASCII range that the recognised
extensions draw from. -/
def lowerStr (s : String) : String :=
  String.mk (s.data.map Char.toLower)

/-- Line 177: `extension.lower() in [".txt", ".md", ".doc", ".rtf"]`. -/
def isTextExt (ext : String) : Bool :=
  [".txt", ".md", ".doc", ".rtf"].contains (lowerStr ext)

/-- Python `os.path.join(a, b)` (posix flavour, as used at line 163). -/
def pathJoin (a b : String) : String :=
  if b.startsWith "/" then b
  else if a = "" ∨ a.endsWith "/" then a ++ b
  else a ++ "/" ++ b

/-- Python `os.path.basename`: the part after the last `'/'` (line 113). -/
def basename (p : String) : String :=
  (p.splitOn "/").getLastD ""

/-! ## Lexicographic name order and Python `sorted` (line 154)

Python compares strings lexicographically by code point.  `sorted` is a
stable ascending sort; on a list of (distinct) names any correct stable sort
produces the same list, so we model it by insertion sort. -/

/-- Code-point lexicographic strict order on character lists, as Python `<`
compares strings. -/
def strLtB : List Char → List Char → Bool
  | [], [] => false
  | [], _ :: _ => true
  | _ :: _, [] => false
  | a :: as, b :: bs =>
      if a.toNat < b.toNat then true
      else if b.toNat < a.toNat then false
      else strLtB as bs

/-- `a ≤ b` in Python string order. -/
def strLeB (a b : String) : Bool := ! strLtB b.data a.data

/-- The order `strLeB` as a proposition. -/
def nameLe (a b : String) : Prop := strLeB a b = true

instance : DecidableRel nameLe := fun a b => by
  unfold nameLe; infer_instance

/-- Insert into a sorted list of names. -/
def insertName (x : String) : List String → List String
  | [] => [x]
  | y :: ys => if strLeB x y then x :: y :: ys else y :: insertName x ys

/-- Model of Python `sorted` on a list of names (line 154). -/
def sortNames : List String → List String
  | [] => []
  | x :: xs => insertName x (sortNames xs)

/-! ## Blocks, remote calls and the chunk/batch pipeline -/

/-- A Notion content block as the script builds them: a paragraph holding one
text chunk (lines 76-88) or an external file reference (lines 118-129). -/
inductive Block : Type
  | paragraph (text : List Char)
  | file (url : String)
  deriving DecidableEq, Repr

/-- One attempted remote call: a page creation (`notion.pages.create`,
line 43) or a children append (`notion.blocks.children.append`, lines 94 and
116), with the outcome the client reported.  Page ids are the call's index in
the run (an opaque fresh identifier). -/
inductive Event : Type
  | create (parent : Nat) (title : String) (ok : Bool)
  | append (page : Nat) (children : List Block) (ok : Bool)
  deriving DecidableEq, Repr

/-- Per-call success oracle standing for the remote service: call number `k`
succeeds iff `o k = true`. -/
abbrev Oracle := Nat → Bool

/-- The all-success remote service. -/
def oTrue : Oracle := fun _ => true

/-- `chunk_size = 2000` (line 67): the chunks of a text,
`[text[i:i+2000] for i in range(0, len(text), 2000)]` (line 71). -/
def textChunks (t : List Char) : List (List Char) := pyChunks t 2000

/-- The paragraph blocks built from the chunks (lines 74-88). -/
def textBlocks (t : List Char) : List Block :=
  (textChunks t).map Block.paragraph

/-- `max_blocks_per_request = 50` (line 68): the batches
`all_blocks[i:i+50] for i in range(0, len(all_blocks), 50)` (lines 92-93). -/
def textBatches (t : List Char) : List (List Block) :=
  pyChunks (textBlocks t) 50

/-- `create_notion_page` (lines 36-57): one create call; on success the fresh
page id is the call index, on failure the exception propagates to the caller
(`none`). -/
def createPage (o : Oracle) (parent : Nat) (title : String) (k : Nat) :
    List Event × Nat × Option Nat :=
  if o k then ([Event.create parent title true], k + 1, some k)
  else ([Event.create parent title false], k + 1, none)

/-- The append loop of `append_text_block` (lines 92-97): one append call per
batch, in order; the first failing call raises, so later batches are never
attempted.  Returns the attempted calls, the next call index, and whether all
batches succeeded. -/
def appendBatches (o : Oracle) (page : Nat) : List (List Block) → Nat → List Event × Nat × Bool
  | [], k => ([], k, true)
  | b :: bs, k =>
      if o k then
        let r := appendBatches o page bs (k + 1)
        (Event.append page b true :: r.1, r.2)
      else ([Event.append page b false], k + 1, false)

/-- `append_text_block` (lines 59-104): chunk the text, build paragraph
blocks, append them in batches of at most 50. -/
def appendTextBlock (o : Oracle) (page : Nat) (t : List Char) (k : Nat) :
    List Event × Nat × Bool :=
  appendBatches o page (textBatches t) k

/-- The dummy external URL of `append_file_block` (line 113). -/
def fileUrl (path : String) : String :=
  "https://example.com/files/" ++ basename path

/-- `append_file_block` (lines 106-137): a single append call with one
external file block. -/
def appendFileBlock (o : Oracle) (page : Nat) (path : String) (k : Nat) :
    List Event × Nat × Bool :=
  if o k then ([Event.append page [Block.file (fileUrl path)] true], k + 1, true)
  else ([Event.append page [Block.file (fileUrl path)] false], k + 1, false)

/-- The placeholder substituted for an unreadable text file (line 184):
`f"Could not parse file {item}"`. -/
def placeholderText (item : String) : List Char :=
  ("Could not parse file " ++ item).data

/-- Lines 178-184: the text a text leaf's page receives — the file's content,
or the placeholder when reading raises. -/
def fileText (c : Option (List Char)) (item : String) : List Char :=
  match c with
  | some s => s
  | none => placeholderText item

/-! ## The local filesystem snapshot -/

/-- A filesystem node.  A directory carries whether `os.listdir` succeeds on
it (`listable = false` models a directory that exists — `os.path.isdir` is
true — but whose listing raises, e.g. for lack of read permission) and its
named entries.  A file carries its text content, `none` when reading it
raises (lines 179-184). -/
inductive FSNode : Type
  | dir (listable : Bool) (entries : List (String × FSNode))
  | file (content : Option (List Char))

/-- Resolving a name among a directory's entries (the filesystem's lookup
behind `os.path.isdir(item_path)` / `open(item_path)`). -/
def lookupEntry : List (String × FSNode) → String → Option FSNode
  | [], _ => none
  | (n, v) :: rest, name => if n = name then some v else lookupEntry rest name

theorem sizeOf_lookupEntry {entries : List (String × FSNode)} {n : String}
    {v : FSNode} (h : lookupEntry entries n = some v) : sizeOf v < sizeOf entries := by
  induction entries with
  | nil => simp [lookupEntry] at h
  | cons e rest ih =>
      obtain ⟨m, w⟩ := e
      by_cases hm : m = n
      · subst hm
        simp [lookupEntry] at h
        subst h
        simp
        omega
      · simp [lookupEntry, hm] at h
        have := ih h
        simp
        omega

/-! ## The sync engine: `sync_folder_to_notion` (lines 143-198)

A run returns the attempted remote calls, the next call index, and an abort
flag.  The flag is true when an uncaught exception is propagating: the only
uncaught exception in the engine is a failing `os.listdir` (line 154) — the
recursive call at line 173 is outside every `try`, so such a failure unwinds
the whole run.  Create/append/read failures are all caught (lines 166-171,
178-198) and never abort. -/

mutual

/-- One invocation of `sync_folder_to_notion(path, parent)` on `node`:
return if the path is not a directory (lines 150-152), abort if the listing
raises (line 154), else walk the sorted names. -/
def syncNode (o : Oracle) (node : FSNode) (path : String) (parent k : Nat) :
    List Event × Nat × Bool :=
  match node with
  | FSNode.file _ => ([], k, false)
  | FSNode.dir listable entries =>
      if listable then
        syncItems o entries path parent (sortNames (entries.map Prod.fst)) k
      else ([], k, true)
termination_by (sizeOf node, 0)
decreasing_by
  apply Prod.Lex.left
  simp

/-- The `for item in items` loop (lines 157-198): skip hidden names, process
each remaining entry in order; an abort from an entry (a listing failure in
its subtree) stops the loop and propagates. -/
def syncItems (o : Oracle) (entries : List (String × FSNode)) (path : String)
    (parent : Nat) (names : List String) (k : Nat) : List Event × Nat × Bool :=
  match names with
  | [] => ([], k, false)
  | item :: rest =>
      if startsWithDot item then syncItems o entries path parent rest k
      else
        match h : lookupEntry entries item with
        | none => syncItems o entries path parent rest k
        | some node =>
            let r1 := syncItem o node (pathJoin path item) parent item k
            if r1.2.2 then r1
            else
              let r2 := syncItems o entries path parent rest r1.2.1
              (r1.1 ++ r2.1, r2.2)
termination_by (sizeOf entries, 2 + names.length)
decreasing_by
  · apply Prod.Lex.right
    simp
  · apply Prod.Lex.right
    simp
  · apply Prod.Lex.left
    exact sizeOf_lookupEntry h
  · apply Prod.Lex.right
    simp

/-- The body of the loop for one resolved entry (lines 163-198).
Directory (lines 164-173): create the page (failure caught: skip the
subtree), then recurse.  Text file (lines 177-191): read — an unreadable
file degrades to the placeholder —, create the page titled by the stem, then
append the chunked content; create or append failure is caught and the loop
moves on.  Other file (lines 192-198): create the page titled by the stem,
then append one external file block; failures likewise caught. -/
def syncItem (o : Oracle) (node : FSNode) (itemPath : String) (parent : Nat)
    (item : String) (k : Nat) : List Event × Nat × Bool :=
  match node with
  | FSNode.dir listable sub =>
      match createPage o parent item k with
      | (es, k1, some pid) =>
          let r := syncNode o (FSNode.dir listable sub) itemPath pid k1
          (es ++ r.1, r.2)
      | (es, k1, none) => (es, k1, false)
  | FSNode.file c =>
      if isTextExt (splitext item).2 then
        let content := fileText c item
        match createPage o parent (splitext item).1 k with
        | (es, k1, some pid) =>
            let r := appendTextBlock o pid content k1
            (es ++ r.1, r.2.1, false)
        | (es, k1, none) => (es, k1, false)
      else
        match createPage o parent (splitext item).1 k with
        | (es, k1, some pid) =>
            let r := appendFileBlock o pid itemPath k1
            (es ++ r.1, r.2.1, false)
        | (es, k1, none) => (es, k1, false)
termination_by (sizeOf node, 1)
decreasing_by
  apply Prod.Lex.right
  omega

end

/-! ## Observations on a trace -/

/-- The titles of the page-creation calls of a trace, in call order. -/
def createTitles (es : List Event) : List String :=
  es.filterMap (fun e =>
    match e with
    | Event.create _ t _ => some t
    | Event.append _ _ _ => none)

/-- The paragraph texts sent by the append calls of a trace, in order. -/
def paragraphTexts (es : List Event) : List (List Char) :=
  es.flatMap (fun e =>
    match e with
    | Event.append _ bs _ =>
        bs.filterMap (fun b =>
          match b with
          | Block.paragraph t => some t
          | Block.file _ => none)
    | Event.create _ _ _ => [])

/-! ## The spec-side traversal order -/

mutual

/-- Every directory in the snapshot can be listed (no `os.listdir` failure
anywhere); decidable, so witness runs can evaluate it. -/
def allListable : FSNode → Bool
  | FSNode.file _ => true
  | FSNode.dir listable entries => listable && allListableList entries

/-- `allListable` over a directory's entries. -/
def allListableList : List (String × FSNode) → Bool
  | [] => true
  | e :: rest => allListable e.2 && allListableList rest

end

mutual

/-- Modelled from the spec's words, for comparison with the engine (§4.4 and
§8 "Traversal determinism"): the expected order of the node-creation calls —
entries in sorted (lexicographic) name order, dot-hidden entries excluded,
each directory's creation call strictly before every call of its subtree,
directory pages titled by the entry name and file pages by the stem. -/
def specTitles (node : FSNode) : List String :=
  match node with
  | FSNode.file _ => []
  | FSNode.dir _ entries =>
      specTitlesList entries (sortNames (entries.map Prod.fst))
termination_by (sizeOf node, 0)
decreasing_by
  apply Prod.Lex.left
  simp

/-- The per-level part of `specTitles`. -/
def specTitlesList (entries : List (String × FSNode)) (names : List String) :
    List String :=
  match names with
  | [] => []
  | n :: rest =>
      if startsWithDot n then specTitlesList entries rest
      else
        match h : lookupEntry entries n with
        | none => specTitlesList entries rest
        | some node => specTitlesItem node n ++ specTitlesList entries rest
termination_by (sizeOf entries, 2 + names.length)
decreasing_by
  · apply Prod.Lex.right
    simp
  · apply Prod.Lex.right
    simp
  · apply Prod.Lex.left
    exact sizeOf_lookupEntry h
  · apply Prod.Lex.right
    simp

/-- The creation calls one entry contributes: a directory contributes its
own title and then its subtree's; a file contributes its stem. -/
def specTitlesItem (node : FSNode) (n : String) : List String :=
  match node with
  | FSNode.dir listable sub => n :: specTitles (FSNode.dir listable sub)
  | FSNode.file _ => [(splitext n).1]
termination_by (sizeOf node, 1)
decreasing_by
  apply Prod.Lex.right
  omega

end

/-! ## The node classifier -/

/-- The three kinds of remote node an entry can become. -/
inductive NodeClass : Type
  | container
  | textLeaf
  | opaqueLeaf
  deriving DecidableEq, Repr

/-- The engine's classification decision (lines 164 and 177): a directory
becomes a container page; a file becomes a text leaf exactly when its
extension, lowercased, is recognised, and an opaque-file leaf otherwise. -/
def classify (node : FSNode) (name : String) : NodeClass :=
  match node with
  | FSNode.dir _ _ => NodeClass.container
  | FSNode.file _ =>
      if isTextExt (splitext name).2 then NodeClass.textLeaf
      else NodeClass.opaqueLeaf

/-! ## Chunking lemmas -/

theorem pyChunks_nil {α : Type} (size : Nat) : pyChunks ([] : List α) size = [] := by
  unfold pyChunks pyRange
  by_cases h : size = 0
  · simp [h]
  · simp [h, Nat.div_eq_of_lt (show size - 1 < size by omega)]

theorem pyChunks_cons {α : Type} {l : List α} {size : Nat} (hs : 0 < size) (hl : l ≠ []) :
    pyChunks l size = l.take size :: pyChunks (l.drop size) size := by
  have hn : 0 < l.length := List.length_pos.mpr hl
  have hsz : ¬ size = 0 := by omega
  have key : (l.length + size - 1) / size = ((l.length - size) + size - 1) / size + 1 := by
    rcases le_or_lt l.length size with hle | hlt
    · have e1 : l.length + size - 1 = (l.length - 1) + size := by omega
      have e2 : l.length - size = 0 := by omega
      rw [e1, Nat.add_div_right _ hs, e2, Nat.zero_add,
        Nat.div_eq_of_lt (by omega), Nat.div_eq_of_lt (by omega)]
    · have e1 : l.length + size - 1 = (l.length - 1) + size := by omega
      have e2 : (l.length - size) + size - 1 = l.length - 1 := by omega
      rw [e1, Nat.add_div_right _ hs, e2]
  simp only [pyChunks, pyRange, hsz, if_false, List.length_drop, List.map_map,
    Nat.sub_zero]
  rw [key, List.range_succ_eq_map]
  simp only [List.map_cons, Function.comp, Nat.zero_add, Nat.zero_mul, List.drop_zero,
    List.map_map]
  congr 1
  apply List.map_congr_left
  intro i _
  simp only [Function.comp, List.drop_drop]
  congr 2
  simp [Nat.succ_mul]
  omega

theorem pyChunks_length {α : Type} (l : List α) (size : Nat) (hs : 0 < size) :
    (pyChunks l size).length = (l.length + size - 1) / size := by
  have hsz : ¬ size = 0 := by omega
  simp [pyChunks, pyRange, hsz]

theorem pyChunks_join {α : Type} (size : Nat) (hs : 0 < size) (l : List α) :
    (pyChunks l size).join = l := by
  by_cases hl : l = []
  · subst hl
    rw [pyChunks_nil]
    rfl
  · rw [pyChunks_cons hs hl]
    have ih := pyChunks_join size hs (l.drop size)
    simp [ih]
termination_by l.length
decreasing_by
  have : 0 < l.length := List.length_pos.mpr hl
  simp only [List.length_drop]
  omega

theorem pyChunks_mem_length_le {α : Type} {l : List α} {size : Nat} {c : List α}
    (hc : c ∈ pyChunks l size) : c.length ≤ size := by
  simp only [pyChunks, List.mem_map] at hc
  obtain ⟨i, _, rfl⟩ := hc
  simp [List.length_take]

theorem pyRange_zero_mem {n size i : Nat} (hs : 0 < size) (h : i ∈ pyRange 0 n size) :
    i < n := by
  have hsz : ¬ size = 0 := by omega
  simp only [pyRange, hsz, if_false, List.mem_map, List.mem_range, Nat.zero_add,
    Nat.sub_zero] at h
  obtain ⟨j, hj, rfl⟩ := h
  have h1 : (j + 1) * size ≤ ((n + size - 1) / size) * size :=
    Nat.mul_le_mul_right _ (by omega)
  have h2 : ((n + size - 1) / size) * size ≤ n + size - 1 := Nat.div_mul_le_self _ _
  have h3 : j * size + size ≤ n + size - 1 := by
    have e : (j + 1) * size = j * size + size := by rw [Nat.succ_mul]
    omega
  omega

theorem pyChunks_mem_ne_nil {α : Type} {l : List α} {size : Nat} (hs : 0 < size)
    {c : List α} (hc : c ∈ pyChunks l size) : c ≠ [] := by
  simp only [pyChunks, List.mem_map] at hc
  obtain ⟨i, hi, rfl⟩ := hc
  have := pyRange_zero_mem hs hi
  have hlen : 0 < ((l.drop i).take size).length := by
    simp only [List.length_take, List.length_drop]
    omega
  exact List.ne_nil_of_length_pos hlen

theorem pyChunks_dropLast {α : Type} {l : List α} {size : Nat} (hs : 0 < size)
    {c : List α} (hc : c ∈ (pyChunks l size).dropLast) : c.length = size := by
  by_cases hl : l = []
  · rw [hl, pyChunks_nil] at hc
    simp at hc
  · rw [pyChunks_cons hs hl] at hc
    rcases le_or_lt l.length size with hle | hlt
    · have hdrop : l.drop size = [] := List.drop_eq_nil_of_le hle
      rw [hdrop, pyChunks_nil] at hc
      simp at hc
    · have hd : l.drop size ≠ [] := by
        apply List.ne_nil_of_length_pos
        simp only [List.length_drop]
        omega
      rw [pyChunks_cons hs hd] at hc
      rw [List.dropLast_cons₂] at hc
      rcases List.mem_cons.mp hc with h | h
      · subst h
        simp only [List.length_take]
        omega
      · rw [← pyChunks_cons hs hd] at h
        exact pyChunks_dropLast hs h
termination_by l.length
decreasing_by
  have : 0 < l.length := List.length_pos.mpr hl
  simp only [List.length_drop]
  omega

/-! ## The sort produces the lexicographic order -/

theorem strLtB_asymm : ∀ {a b : List Char}, strLtB a b = true → strLtB b a = false := by
  intro a
  induction a with
  | nil =>
      intro b h
      cases b with
      | nil => simp [strLtB] at h
      | cons y ys => simp [strLtB]
  | cons x xs ih =>
      intro b h
      cases b with
      | nil => simp [strLtB] at h
      | cons y ys =>
          simp only [strLtB] at h ⊢
          rcases Nat.lt_trichotomy x.toNat y.toNat with hlt | heq | hgt
          · simp only [if_pos hlt] at h
            rw [if_neg (by omega), if_pos hlt]
          · simp only [if_neg (by omega : ¬ x.toNat < y.toNat),
              if_neg (by omega : ¬ y.toNat < x.toNat)] at h ⊢
            exact ih h
          · simp [if_neg (by omega : ¬ x.toNat < y.toNat), if_pos hgt] at h

theorem strLeB_total (a b : String) : strLeB a b = true ∨ strLeB b a = true := by
  unfold strLeB
  by_cases h : strLtB b.data a.data = true
  · right
    rw [strLtB_asymm h]
    rfl
  · left
    rw [Bool.not_eq_true] at h
    rw [h]
    rfl

theorem strLtB_le_trans : ∀ {a b c : List Char}, strLtB c a = true →
    strLtB c b = true ∨ strLtB b a = true := by
  intro a
  induction a with
  | nil =>
      intro b c h
      cases c with
      | nil => simp [strLtB] at h
      | cons z zs => simp [strLtB] at h
  | cons x xs ih =>
      intro b c h
      cases c with
      | nil =>
          cases b with
          | nil => right; exact h
          | cons y ys => left; simp [strLtB]
      | cons z zs =>
          cases b with
          | nil => right; simp [strLtB]
          | cons y ys =>
              simp only [strLtB] at h ⊢
              rcases Nat.lt_trichotomy z.toNat y.toNat with h1 | h1 | h1
              · left
                rw [if_pos h1]
              · rcases Nat.lt_trichotomy y.toNat x.toNat with h2 | h2 | h2
                · right
                  rw [if_pos h2]
                · rw [if_neg (by omega : ¬ z.toNat < x.toNat),
                    if_neg (by omega : ¬ x.toNat < z.toNat)] at h
                  rcases ih (b := ys) h with h3 | h3
                  · left
                    rw [if_neg (by omega : ¬ z.toNat < y.toNat),
                      if_neg (by omega : ¬ y.toNat < z.toNat)]
                    exact h3
                  · right
                    rw [if_neg (by omega : ¬ y.toNat < x.toNat),
                      if_neg (by omega : ¬ x.toNat < y.toNat)]
                    exact h3
                · rw [if_neg (by omega : ¬ z.toNat < x.toNat),
                    if_pos (by omega : x.toNat < z.toNat)] at h
                  simp at h
              · rcases Nat.lt_trichotomy y.toNat x.toNat with h2 | h2 | h2
                · right
                  rw [if_pos h2]
                · rw [if_neg (by omega : ¬ z.toNat < x.toNat),
                    if_pos (by omega : x.toNat < z.toNat)] at h
                  simp at h
                · rw [if_neg (by omega : ¬ z.toNat < x.toNat),
                    if_pos (by omega : x.toNat < z.toNat)] at h
                  simp at h

theorem nameLe_trans {a b c : String} (h1 : nameLe a b) (h2 : nameLe b c) :
    nameLe a c := by
  unfold nameLe strLeB at h1 h2 ⊢
  rw [Bool.not_eq_true'] at h1 h2 ⊢
  by_contra hc
  rw [Bool.not_eq_false] at hc
  rcases strLtB_le_trans (a := a.data) (b := b.data) hc with h | h
  · rw [h2] at h
    exact Bool.false_ne_true h
  · rw [h1] at h
    exact Bool.false_ne_true h

theorem mem_insertName {x z : String} : ∀ {l : List String},
    z ∈ insertName x l → z = x ∨ z ∈ l := by
  intro l
  induction l with
  | nil =>
      intro h
      simp [insertName] at h
      exact Or.inl h
  | cons y ys ih =>
      intro h
      unfold insertName at h
      by_cases hle : strLeB x y = true
      · rw [if_pos hle] at h
        rcases List.mem_cons.mp h with h | h
        · exact Or.inl h
        · exact Or.inr h
      · rw [if_neg hle] at h
        rcases List.mem_cons.mp h with h | h
        · exact Or.inr (h ▸ List.mem_cons_self y ys)
        · rcases ih h with h | h
          · exact Or.inl h
          · exact Or.inr (List.mem_cons_of_mem y h)

theorem pairwise_insertName {x : String} : ∀ {l : List String},
    l.Pairwise nameLe → (insertName x l).Pairwise nameLe := by
  intro l
  induction l with
  | nil =>
      intro _
      simp [insertName]
  | cons y ys ih =>
      intro hp
      rcases List.pairwise_cons.mp hp with ⟨hy, hys⟩
      unfold insertName
      by_cases hle : strLeB x y = true
      · rw [if_pos hle]
        refine List.pairwise_cons.mpr ⟨?_, hp⟩
        intro z hz
        rcases List.mem_cons.mp hz with h | h
        · exact h ▸ hle
        · exact nameLe_trans hle (hy z h)
      · rw [if_neg hle]
        refine List.pairwise_cons.mpr ⟨?_, ih hys⟩
        intro z hz
        rcases mem_insertName hz with h | h
        · subst h
          rcases strLeB_total y z with h | h
          · exact h
          · exact absurd h hle
        · exact hy z h

/-- Python's `sorted(items)` (line 154) returns the names in nondecreasing
lexicographic (code point) order. -/
theorem sortNames_pairwise : ∀ (l : List String), (sortNames l).Pairwise nameLe := by
  intro l
  induction l with
  | nil => simp [sortNames]
  | cons x xs ih => exact pairwise_insertName ih

theorem sortNames_perm : ∀ (l : List String), (sortNames l).Perm l := by
  intro l
  induction l with
  | nil => simp [sortNames]
  | cons x xs ih =>
      have h1 : ∀ (y : String) (m : List String), (insertName y m).Perm (y :: m) := by
        intro y m
        induction m with
        | nil => simp [insertName]
        | cons z zs ihm =>
            unfold insertName
            by_cases hle : strLeB y z = true
            · rw [if_pos hle]
            · rw [if_neg hle]
              exact (List.Perm.cons z ihm).trans (List.Perm.swap y z zs)
      exact (h1 x (sortNames xs)).trans (List.Perm.cons x ih)

/-! ## Batch-call lemmas -/

theorem appendBatches_all_ok (o : Oracle) (page : Nat) :
    ∀ (bs : List (List Block)) (k : Nat), (∀ i, i < bs.length → o (k + i) = true) →
    appendBatches o page bs k =
      (bs.map (fun b => Event.append page b true), k + bs.length, true) := by
  intro bs
  induction bs with
  | nil =>
      intro k _
      simp [appendBatches]
  | cons b rest ih =>
      intro k hk
      have h0 : o k = true := by
        have := hk 0 (by simp)
        simpa using this
      have hrest := ih (k + 1) (fun i hi => by
        have h1 := hk (i + 1) (by simp; omega)
        have e : k + 1 + i = k + (i + 1) := by omega
        rw [e]
        exact h1)
      simp only [appendBatches, h0, if_pos, hrest]
      simp [List.length_cons]
      omega

theorem appendBatches_events_mem {o : Oracle} {page : Nat} :
    ∀ {bs : List (List Block)} {k : Nat} {e : Event},
    e ∈ (appendBatches o page bs k).1 → ∃ b ∈ bs, ∃ ok, e = Event.append page b ok := by
  intro bs
  induction bs with
  | nil =>
      intro k e he
      simp [appendBatches] at he
  | cons b rest ih =>
      intro k e he
      unfold appendBatches at he
      by_cases h0 : o k = true
      · rw [if_pos h0] at he
        rcases List.mem_cons.mp he with h | h
        · exact ⟨b, List.mem_cons_self b rest, true, h⟩
        · rcases ih h with ⟨b2, hb2, ok, rfl⟩
          exact ⟨b2, List.mem_cons_of_mem b hb2, ok, rfl⟩
      · rw [if_neg h0] at he
        rcases List.mem_singleton.mp he with rfl
        exact ⟨b, List.mem_cons_self b rest, false, rfl⟩

theorem createTitles_appendBatches (o : Oracle) (page : Nat) :
    ∀ (bs : List (List Block)) (k : Nat), createTitles (appendBatches o page bs k).1 = [] := by
  intro bs
  induction bs with
  | nil =>
      intro k
      simp [appendBatches, createTitles]
  | cons b rest ih =>
      intro k
      unfold appendBatches
      by_cases h0 : o k = true
      · rw [if_pos h0]
        simp only [createTitles, List.filterMap_cons]
        exact ih (k + 1)
      · rw [if_neg h0]
        simp [createTitles]

theorem paragraphTexts_appendBatches_all_ok (o : Oracle) (page : Nat)
    (bs : List (List Block)) (k : Nat) (hk : ∀ i, i < bs.length → o (k + i) = true) :
    paragraphTexts (appendBatches o page bs k).1 =
      bs.flatMap (fun b => b.filterMap (fun bl =>
        match bl with
        | Block.paragraph t => some t
        | Block.file _ => none)) := by
  rw [appendBatches_all_ok o page bs k hk]
  simp [paragraphTexts, List.flatMap_map]

/-! ## Step lemmas for the engine -/

theorem syncNode_file (o : Oracle) (c : Option (List Char)) (path : String)
    (parent k : Nat) : syncNode o (FSNode.file c) path parent k = ([], k, false) := by
  rw [syncNode]

theorem syncNode_dir (o : Oracle) (listable : Bool) (entries : List (String × FSNode))
    (path : String) (parent k : Nat) :
    syncNode o (FSNode.dir listable entries) path parent k =
      if listable then
        syncItems o entries path parent (sortNames (entries.map Prod.fst)) k
      else ([], k, true) := by
  rw [syncNode]

theorem syncItems_nil (o : Oracle) (entries : List (String × FSNode)) (path : String)
    (parent k : Nat) : syncItems o entries path parent [] k = ([], k, false) := by
  rw [syncItems]

theorem syncItems_cons_hidden {item : String} (hdot : startsWithDot item = true)
    (o : Oracle) (entries : List (String × FSNode)) (path : String) (parent : Nat)
    (rest : List String) (k : Nat) :
    syncItems o entries path parent (item :: rest) k =
      syncItems o entries path parent rest k := by
  rw [syncItems]
  simp [hdot]

theorem syncItems_cons_none {entries : List (String × FSNode)} {item : String}
    (hdot : startsWithDot item = false) (hlook : lookupEntry entries item = none)
    (o : Oracle) (path : String) (parent : Nat) (rest : List String) (k : Nat) :
    syncItems o entries path parent (item :: rest) k =
      syncItems o entries path parent rest k := by
  rw [syncItems]
  simp only [hdot, Bool.false_eq_true, if_false]
  split
  · rfl
  · rename_i node heq
    rw [hlook] at heq
    exact absurd heq (by simp)

theorem syncItems_cons_some {entries : List (String × FSNode)} {item : String}
    {node : FSNode} (hdot : startsWithDot item = false)
    (hlook : lookupEntry entries item = some node)
    (o : Oracle) (path : String) (parent : Nat) (rest : List String) (k : Nat) :
    syncItems o entries path parent (item :: rest) k =
      (let r1 := syncItem o node (pathJoin path item) parent item k
       if r1.2.2 then r1
       else
         let r2 := syncItems o entries path parent rest r1.2.1
         (r1.1 ++ r2.1, r2.2)) := by
  rw [syncItems]
  simp only [hdot, Bool.false_eq_true, if_false]
  split
  · rename_i heq
    rw [hlook] at heq
    exact absurd heq (by simp)
  · rename_i node2 heq
    rw [hlook] at heq
    injection heq with h2
    subst h2
    rfl

theorem syncItem_dir_ok {o : Oracle} {k : Nat} (hok : o k = true) (listable : Bool)
    (sub : List (String × FSNode)) (itemPath : String) (parent : Nat) (item : String) :
    syncItem o (FSNode.dir listable sub) itemPath parent item k =
      (Event.create parent item true ::
          (syncNode o (FSNode.dir listable sub) itemPath k (k + 1)).1,
        (syncNode o (FSNode.dir listable sub) itemPath k (k + 1)).2) := by
  rw [syncItem]
  simp [createPage, hok]

theorem syncItem_dir_fail {o : Oracle} {k : Nat} (hok : o k = false) (listable : Bool)
    (sub : List (String × FSNode)) (itemPath : String) (parent : Nat) (item : String) :
    syncItem o (FSNode.dir listable sub) itemPath parent item k =
      ([Event.create parent item false], k + 1, false) := by
  rw [syncItem]
  simp [createPage, hok]

theorem syncItem_text_ok {item : String} (hext : isTextExt (splitext item).2 = true)
    {o : Oracle} {k : Nat} (hok : o k = true) (c : Option (List Char))
    (itemPath : String) (parent : Nat) :
    syncItem o (FSNode.file c) itemPath parent item k =
      (Event.create parent (splitext item).1 true ::
          (appendTextBlock o k (fileText c item) (k + 1)).1,
        (appendTextBlock o k (fileText c item) (k + 1)).2.1, false) := by
  rw [syncItem]
  simp [createPage, hext, hok]

theorem syncItem_text_fail {item : String} (hext : isTextExt (splitext item).2 = true)
    {o : Oracle} {k : Nat} (hok : o k = false) (c : Option (List Char))
    (itemPath : String) (parent : Nat) :
    syncItem o (FSNode.file c) itemPath parent item k =
      ([Event.create parent (splitext item).1 false], k + 1, false) := by
  rw [syncItem]
  simp [createPage, hext, hok]

theorem syncItem_file_ok {item : String} (hext : isTextExt (splitext item).2 = false)
    {o : Oracle} {k : Nat} (hok : o k = true) (c : Option (List Char))
    (itemPath : String) (parent : Nat) :
    syncItem o (FSNode.file c) itemPath parent item k =
      (Event.create parent (splitext item).1 true ::
          (appendFileBlock o k itemPath (k + 1)).1,
        (appendFileBlock o k itemPath (k + 1)).2.1, false) := by
  rw [syncItem]
  simp [createPage, hext, hok]

theorem syncItem_file_fail {item : String} (hext : isTextExt (splitext item).2 = false)
    {o : Oracle} {k : Nat} (hok : o k = false) (c : Option (List Char))
    (itemPath : String) (parent : Nat) :
    syncItem o (FSNode.file c) itemPath parent item k =
      ([Event.create parent (splitext item).1 false], k + 1, false) := by
  rw [syncItem]
  simp [createPage, hext, hok]

/-! ## The engine follows the spec-side traversal -/

theorem specTitlesList_nil (entries : List (String × FSNode)) :
    specTitlesList entries [] = [] := by
  rw [specTitlesList]

theorem specTitlesList_cons_hidden {n : String} (hdot : startsWithDot n = true)
    (entries : List (String × FSNode)) (rest : List String) :
    specTitlesList entries (n :: rest) = specTitlesList entries rest := by
  rw [specTitlesList]
  simp [hdot]

theorem specTitlesList_cons_none {entries : List (String × FSNode)} {n : String}
    (hdot : startsWithDot n = false) (hlook : lookupEntry entries n = none)
    (rest : List String) :
    specTitlesList entries (n :: rest) = specTitlesList entries rest := by
  rw [specTitlesList]
  simp only [hdot, Bool.false_eq_true, if_false]
  split
  · rfl
  · rename_i node heq
    rw [hlook] at heq
    exact absurd heq (by simp)

theorem specTitlesList_cons_some {entries : List (String × FSNode)} {n : String}
    {node : FSNode} (hdot : startsWithDot n = false)
    (hlook : lookupEntry entries n = some node) (rest : List String) :
    specTitlesList entries (n :: rest) =
      specTitlesItem node n ++ specTitlesList entries rest := by
  rw [specTitlesList]
  simp only [hdot, Bool.false_eq_true, if_false]
  split
  · rename_i heq
    rw [hlook] at heq
    exact absurd heq (by simp)
  · rename_i node2 heq
    rw [hlook] at heq
    injection heq with h2
    subst h2
    rfl

theorem allListableList_lookup : ∀ {entries : List (String × FSNode)} {n : String}
    {v : FSNode}, allListableList entries = true → lookupEntry entries n = some v →
    allListable v = true := by
  intro entries
  induction entries with
  | nil =>
      intro n v _ hlook
      simp [lookupEntry] at hlook
  | cons e rest ih =>
      intro n v hall hlook
      rw [allListableList, Bool.and_eq_true] at hall
      obtain ⟨m, w⟩ := e
      by_cases hm : m = n
      · subst hm
        simp [lookupEntry] at hlook
        exact hlook ▸ hall.1
      · simp [lookupEntry, hm] at hlook
        exact ih hall.2 hlook

theorem createTitles_append (a b : List Event) :
    createTitles (a ++ b) = createTitles a ++ createTitles b := by
  simp [createTitles, List.filterMap_append]

theorem createTitles_cons_create (p : Nat) (t : String) (ok : Bool) (es : List Event) :
    createTitles (Event.create p t ok :: es) = t :: createTitles es := by
  simp [createTitles]

theorem createTitles_appendTextBlock (o : Oracle) (page : Nat) (t : List Char)
    (k : Nat) : createTitles (appendTextBlock o page t k).1 = [] := by
  unfold appendTextBlock
  rw [createTitles_appendBatches]

theorem createTitles_appendFileBlock (o : Oracle) (page : Nat) (path : String)
    (k : Nat) : createTitles (appendFileBlock o page path k).1 = [] := by
  unfold appendFileBlock
  by_cases h : o k = true
  · rw [if_pos h]
    simp [createTitles]
  · rw [if_neg h]
    simp [createTitles]

mutual

/-- With an all-success remote service and a fully listable snapshot, a run
does not abort and its page-creation calls are, in order, exactly the
spec-side traversal order. -/
theorem syncNode_titles (node : FSNode) (path : String) (parent k : Nat)
    (h : allListable node = true) :
    (syncNode oTrue node path parent k).2.2 = false ∧
    createTitles (syncNode oTrue node path parent k).1 = specTitles node := by
  match node with
  | FSNode.file c =>
      rw [syncNode_file, specTitles]
      simp [createTitles]
  | FSNode.dir listable entries =>
      rw [allListable, Bool.and_eq_true] at h
      rw [syncNode_dir, specTitles, h.1, if_pos (rfl : true = true)]
      exact syncItems_titles entries path parent (sortNames (entries.map Prod.fst)) k h.2
termination_by (sizeOf node, 0)
decreasing_by
  apply Prod.Lex.left
  simp

theorem syncItems_titles (entries : List (String × FSNode)) (path : String)
    (parent : Nat) (names : List String) (k : Nat)
    (h : allListableList entries = true) :
    (syncItems oTrue entries path parent names k).2.2 = false ∧
    createTitles (syncItems oTrue entries path parent names k).1 =
      specTitlesList entries names := by
  match names with
  | [] =>
      rw [syncItems_nil, specTitlesList_nil]
      simp [createTitles]
  | item :: rest =>
      by_cases hdot : startsWithDot item = true
      · rw [syncItems_cons_hidden hdot, specTitlesList_cons_hidden hdot]
        exact syncItems_titles entries path parent rest k h
      · have hdot2 : startsWithDot item = false := by
          rw [Bool.not_eq_true] at hdot
          exact hdot
        cases hlook : lookupEntry entries item with
        | none =>
            rw [syncItems_cons_none hdot2 hlook, specTitlesList_cons_none hdot2 hlook]
            exact syncItems_titles entries path parent rest k h
        | some node =>
            have hnode : allListable node = true := allListableList_lookup h hlook
            rw [syncItems_cons_some hdot2 hlook, specTitlesList_cons_some hdot2 hlook]
            rcases syncItem_titles node (pathJoin path item) parent item k hnode with
              ⟨hab, hti⟩
            rcases syncItems_titles entries path parent rest
                ((syncItem oTrue node (pathJoin path item) parent item k).2.1) h with
              ⟨hab2, hti2⟩
            simp only [hab, Bool.false_eq_true, if_false]
            exact ⟨hab2, by rw [createTitles_append, hti, hti2]⟩
termination_by (sizeOf entries, 2 + names.length)
decreasing_by
  all_goals first
    | (apply Prod.Lex.right
       simp)
    | (apply Prod.Lex.left
       exact sizeOf_lookupEntry hlook)

theorem syncItem_titles (node : FSNode) (itemPath : String) (parent : Nat)
    (item : String) (k : Nat) (h : allListable node = true) :
    (syncItem oTrue node itemPath parent item k).2.2 = false ∧
    createTitles (syncItem oTrue node itemPath parent item k).1 =
      specTitlesItem node item := by
  match node with
  | FSNode.dir listable sub =>
      rw [syncItem_dir_ok rfl, specTitlesItem]
      rcases syncNode_titles (FSNode.dir listable sub) itemPath k (k + 1) h with
        ⟨hab, hti⟩
      refine ⟨hab, ?_⟩
      rw [createTitles_cons_create, hti]
  | FSNode.file c =>
      by_cases hext : isTextExt (splitext item).2 = true
      · rw [syncItem_text_ok hext rfl, specTitlesItem]
        refine ⟨rfl, ?_⟩
        rw [createTitles_cons_create, createTitles_appendTextBlock]
      · have hext2 : isTextExt (splitext item).2 = false := by
          rw [Bool.not_eq_true] at hext
          exact hext
        rw [syncItem_file_ok hext2 rfl, specTitlesItem]
        refine ⟨rfl, ?_⟩
        rw [createTitles_cons_create, createTitles_appendFileBlock]
termination_by (sizeOf node, 1)
decreasing_by
  apply Prod.Lex.right
  omega

end

/-! ## The claims -/

theorem isTextExt_iff (e : String) :
    isTextExt e = true ↔
      (lowerStr e = ".txt" ∨ lowerStr e = ".md" ∨ lowerStr e = ".doc" ∨
        lowerStr e = ".rtf") := by
  unfold isTextExt
  simp [List.contains, beq_iff_eq]

/-- **C1** (functional correctness of the chunker, `append_text_block`, lines
67-71): for every text and the configured chunk length 2000, the chunks are
consecutive non-overlapping substrings in original order — concatenating them
in order reproduces the text exactly —, each chunk has length at most 2000,
every chunk except possibly the last has length exactly 2000, the number of
chunks equals `ceil(len/2000)`, and the empty text yields zero chunks. -/
theorem chunker_splits_exactly_c1 (t : List Char) :
    (textChunks t).join = t ∧
    (∀ c ∈ textChunks t, c.length ≤ 2000) ∧
    (∀ c ∈ (textChunks t).dropLast, c.length = 2000) ∧
    (textChunks t).length = (t.length + 1999) / 2000 ∧
    (t = [] → textChunks t = []) := by
  refine ⟨pyChunks_join 2000 (by omega) t, ?_, ?_, ?_, ?_⟩
  · intro c hc
    exact pyChunks_mem_length_le hc
  · intro c hc
    exact pyChunks_dropLast (by omega) hc
  · have h := pyChunks_length t 2000 (by omega)
    have e : t.length + 2000 - 1 = t.length + 1999 := by omega
    rw [e] at h
    exact h
  · intro h
    rw [h]
    exact pyChunks_nil 2000

/-- **C2** (safety of the batching, `append_text_block`, lines 91-97): the
blocks of a text are submitted in batches that partition the block sequence
into `ceil(n/50)` groups of at most 50 blocks each, preserving the global
order across batch boundaries; every batch is nonempty, every append call of
`append_text_block` carries a nonempty block list, and the empty text makes
no append call at all. -/
theorem batching_partitions_c2 (t : List Char) (o : Oracle) (page k : Nat) :
    (textBatches t).join = textBlocks t ∧
    (∀ b ∈ textBatches t, b.length ≤ 50 ∧ b ≠ []) ∧
    (textBatches t).length = ((textChunks t).length + 49) / 50 ∧
    (t = [] → appendTextBlock o page t k = ([], k, true)) ∧
    (∀ e ∈ (appendTextBlock o page t k).1, ∀ p bs ok,
      e = Event.append p bs ok → bs ≠ []) := by
  refine ⟨pyChunks_join 50 (by omega) _, ?_, ?_, ?_, ?_⟩
  · intro b hb
    exact ⟨pyChunks_mem_length_le hb, pyChunks_mem_ne_nil (by omega) hb⟩
  · have h := pyChunks_length (textBlocks t) 50 (by omega)
    have e1 : (textBlocks t).length = (textChunks t).length := by
      simp [textBlocks]
    have e2 : (textChunks t).length + 50 - 1 = (textChunks t).length + 49 := by omega
    rw [e1, e2] at h
    exact h
  · intro h
    subst h
    have h1 : textChunks ([] : List Char) = [] := pyChunks_nil 2000
    have h2 : textBatches ([] : List Char) = [] := by
      show pyChunks (textBlocks []) 50 = []
      rw [show textBlocks [] = [] from by rw [textBlocks, h1]; rfl]
      exact pyChunks_nil 50
    show appendBatches o page (textBatches []) k = ([], k, true)
    rw [h2]
    rfl
  · intro e he p bs ok heq
    subst heq
    rcases appendBatches_events_mem he with ⟨b, hb, ok2, heq2⟩
    injection heq2 with h1 h2 h3
    subst h2
    exact pyChunks_mem_ne_nil (by omega) hb

/-- **C4** (the node classifier, lines 164 and 177): a directory is classified
as a container node; a file is classified as a text leaf if and only if its
extension, lowercased, is one of `.txt`, `.md`, `.doc`, `.rtf`, and as an
opaque-file leaf otherwise; the decision is a pure total function with no
error case. -/
theorem classifier_total_c4 (listable : Bool) (entries : List (String × FSNode))
    (c : Option (List Char)) (name : String) :
    classify (FSNode.dir listable entries) name = NodeClass.container ∧
    (classify (FSNode.file c) name = NodeClass.textLeaf ↔
      (lowerStr (splitext name).2 = ".txt" ∨ lowerStr (splitext name).2 = ".md" ∨
        lowerStr (splitext name).2 = ".doc" ∨ lowerStr (splitext name).2 = ".rtf")) ∧
    (classify (FSNode.file c) name = NodeClass.textLeaf ∨
      classify (FSNode.file c) name = NodeClass.opaqueLeaf) := by
  refine ⟨rfl, ?_, ?_⟩
  · rw [← isTextExt_iff]
    unfold classify
    by_cases h : isTextExt (splitext name).2 = true
    · simp [h]
    · rw [Bool.not_eq_true] at h
      simp [h]
  · unfold classify
    by_cases h : isTextExt (splitext name).2 = true
    · left
      simp [h]
    · right
      rw [Bool.not_eq_true] at h
      simp [h]

/-- **C3** (traversal order, `sync_folder_to_notion`, lines 154-173): the
engine processes a listing's entries in lexicographic name order — `sortNames`
returns a nondecreasing permutation of the names in Python string order —
skipping every name that begins with a dot; and on a fully listable snapshot
with the remote service accepting every call, the sequence of page-creation
calls equals the spec-side traversal order (`specTitles`): sorted names,
hidden entries excluded, each parent page created strictly before any page of
its subtree.  The engine is a pure function of the snapshot, so two runs on a
fixed snapshot produce identical call sequences. -/
theorem traversal_order_c3 (fs : FSNode) (path : String) (parent k : Nat)
    (h : allListable fs = true) :
    createTitles (syncNode oTrue fs path parent k).1 = specTitles fs ∧
    (∀ l : List String, (sortNames l).Pairwise nameLe ∧ (sortNames l).Perm l) :=
  ⟨(syncNode_titles fs path parent k h).2,
    fun l => ⟨sortNames_pairwise l, sortNames_perm l⟩⟩

/-- Witness for C3 at a concrete two-level snapshot. -/
theorem traversal_order_c3_witness :
    createTitles (syncNode oTrue (FSNode.dir true [("b.txt", FSNode.file (some [])),
        ("a", FSNode.dir true [("c.md", FSNode.file none)])]) "root" 5 0).1 =
      specTitles (FSNode.dir true [("b.txt", FSNode.file (some [])),
        ("a", FSNode.dir true [("c.md", FSNode.file none)])]) ∧
    (∀ l : List String, (sortNames l).Pairwise nameLe ∧ (sortNames l).Perm l) :=
  traversal_order_c3 _ "root" 5 0 (by simp [allListable, allListableList])

/-- **C5** (container-create failure isolation, lines 164-173): when the
creation call for a (non-hidden) directory entry fails, the engine's trace
for that entry is exactly the one failed create call — no remote call is made
for anything in the entry's subtree — and the remaining sibling names are
then processed exactly as a fresh loop from the next call index would process
them; the failure never aborts the run. -/
theorem container_failure_isolated_c5 (o : Oracle) (entries : List (String × FSNode))
    (path : String) (parent : Nat) (item : String) (rest : List String) (k : Nat)
    (listable : Bool) (sub : List (String × FSNode))
    (hdot : startsWithDot item = false)
    (hlook : lookupEntry entries item = some (FSNode.dir listable sub))
    (hfail : o k = false) :
    syncItems o entries path parent (item :: rest) k =
      (Event.create parent item false ::
          (syncItems o entries path parent rest (k + 1)).1,
        (syncItems o entries path parent rest (k + 1)).2) := by
  rw [syncItems_cons_some hdot hlook, syncItem_dir_fail hfail]
  simp

/-- Witness for C5: the create call for directory `"x"` fails, the loop
still processes sibling `"y"`. -/
theorem container_failure_isolated_c5_witness :
    syncItems (fun _ => false) [("x", FSNode.dir true []), ("y", FSNode.file (some []))]
        "r" 7 ["x", "y"] 0 =
      (Event.create 7 "x" false ::
          (syncItems (fun _ => false) [("x", FSNode.dir true []), ("y", FSNode.file (some []))]
              "r" 7 ["y"] 1).1,
        (syncItems (fun _ => false) [("x", FSNode.dir true []), ("y", FSNode.file (some []))]
            "r" 7 ["y"] 1).2) :=
  container_failure_isolated_c5 (fun _ => false) _ "r" 7 "x" ["y"] 0 true []
    (by rfl) (by rfl) rfl

/-- **C6** (amended): a sync task whose local path is not a directory is
handled as the claim says — the engine logs and returns without creating any
remote node for that task and without aborting, so the rest of the tree
continues; but a listing failure on an existing directory (readable as a
path, unlistable as a directory) is NOT isolated: `os.listdir` (line 154) is
outside every `try` and the recursive call (line 173) propagates the
exception, so the engine makes no call for that task and the whole run
aborts. -/
theorem fs_failure_partial_isolation_c6 (o : Oracle) (c : Option (List Char))
    (path : String) (parent k : Nat) :
    syncNode o (FSNode.file c) path parent k = ([], k, false) ∧
    (∀ entries, syncNode o (FSNode.dir false entries) path parent k = ([], k, true)) := by
  refine ⟨syncNode_file o c path parent k, ?_⟩
  intro entries
  rw [syncNode_dir]
  rfl

/-- **C6** counterexample: in a snapshot where subdirectory `"a"` exists but
cannot be listed and sibling `"b"` follows it, the run aborts: the trace
holds the creation call for `"a"` only, `"b"` is never processed, and the
abort flag is set — the listing failure is not isolated and traversal of the
rest of the tree does not continue, contrary to the claim. -/
theorem listing_failure_aborts_run_c6_cex :
    (syncNode oTrue (FSNode.dir true [("a", FSNode.dir false []), ("b", FSNode.dir true [])])
        "root" 0 0).2.2 = true ∧
    createTitles (syncNode oTrue (FSNode.dir true [("a", FSNode.dir false []),
        ("b", FSNode.dir true [])]) "root" 0 0).1 = ["a"] := by
  have hsort : sortNames (List.map Prod.fst
      [("a", FSNode.dir false []), ("b", FSNode.dir true [])]) = ["a", "b"] := by rfl
  have habort : syncNode oTrue (FSNode.dir false []) (pathJoin "root" "a") 0 1 =
      ([], 1, true) := by
    rw [syncNode_dir]
    rfl
  have hitem : syncItem oTrue (FSNode.dir false []) (pathJoin "root" "a") 0 "a" 0 =
      ([Event.create 0 "a" true], 1, true) := by
    rw [syncItem_dir_ok rfl, habort]
  have hitems : syncItems oTrue [("a", FSNode.dir false []), ("b", FSNode.dir true [])]
      "root" 0 ["a", "b"] 0 = ([Event.create 0 "a" true], 1, true) := by
    rw [syncItems_cons_some (by rfl) (by rfl), hitem]
    rfl
  have htop : syncNode oTrue (FSNode.dir true [("a", FSNode.dir false []),
      ("b", FSNode.dir true [])]) "root" 0 0 = ([Event.create 0 "a" true], 1, true) := by
    rw [syncNode_dir, if_pos (rfl : true = true), hsort, hitems]
  rw [htop]
  exact ⟨rfl, rfl⟩

theorem paragraphTexts_cons_create (p : Nat) (t : String) (ok : Bool)
    (es : List Event) :
    paragraphTexts (Event.create p t ok :: es) = paragraphTexts es := by
  simp [paragraphTexts]

theorem flatMap_filterMap_join {α β : Type} (f : α → Option β) :
    ∀ (L : List (List α)), (L.flatMap (fun b => b.filterMap f)) = L.join.filterMap f := by
  intro L
  induction L with
  | nil => simp
  | cons b rest ih => simp [ih, List.filterMap_append]

theorem paragraphTexts_appendTextBlock_oTrue (page : Nat) (t : List Char) (k : Nat) :
    (paragraphTexts (appendTextBlock oTrue page t k).1).join = t := by
  show (paragraphTexts (appendBatches oTrue page (textBatches t) k).1).join = t
  rw [paragraphTexts_appendBatches_all_ok oTrue page _ k (fun i _ => rfl)]
  rw [flatMap_filterMap_join]
  have h1 : (textBatches t).join = textBlocks t := pyChunks_join 50 (by omega) _
  rw [h1]
  show (((textChunks t).map Block.paragraph).filterMap _).join = t
  rw [List.filterMap_map]
  show (List.filterMap some (textChunks t)).join = t
  rw [List.filterMap_some]
  exact pyChunks_join 2000 (by omega) t

/-- **C7** (degrade-not-abort for unreadable text files, lines 178-188): a
text-classified file whose read fails still gets its page created (titled by
the stem) and receives the fixed placeholder string
`"Could not parse file <name>"` as its content rather than being skipped or
left empty; the placeholder is nonempty and names the file, and the read
failure does not abort the traversal. -/
theorem unreadable_text_placeholder_c7 (item path : String) (parent k : Nat)
    (hext : isTextExt (splitext item).2 = true) :
    (syncItem oTrue (FSNode.file none) (pathJoin path item) parent item k).2.2 = false ∧
    createTitles (syncItem oTrue (FSNode.file none) (pathJoin path item) parent item
        k).1 = [(splitext item).1] ∧
    (paragraphTexts (syncItem oTrue (FSNode.file none) (pathJoin path item) parent item
        k).1).join = placeholderText item ∧
    placeholderText item = ("Could not parse file " ++ item).data ∧
    placeholderText item ≠ [] := by
  rw [syncItem_text_ok hext rfl]
  refine ⟨rfl, ?_, ?_, rfl, ?_⟩
  · rw [createTitles_cons_create, createTitles_appendTextBlock]
  · rw [paragraphTexts_cons_create]
    show (paragraphTexts (appendTextBlock oTrue k (placeholderText item) (k + 1)).1).join =
      placeholderText item
    exact paragraphTexts_appendTextBlock_oTrue k (placeholderText item) (k + 1)
  · unfold placeholderText
    rw [String.data_append]
    intro hc
    exact absurd hc (by simp)

/-- Witness for C7 at the spec's scenario file `locked.txt`. -/
theorem unreadable_text_placeholder_c7_witness :
    (syncItem oTrue (FSNode.file none) (pathJoin "root" "locked.txt") 3 "locked.txt"
        2).2.2 = false ∧
    createTitles (syncItem oTrue (FSNode.file none) (pathJoin "root" "locked.txt") 3
        "locked.txt" 2).1 = [(splitext "locked.txt").1] ∧
    (paragraphTexts (syncItem oTrue (FSNode.file none) (pathJoin "root" "locked.txt") 3
        "locked.txt" 2).1).join = placeholderText "locked.txt" ∧
    placeholderText "locked.txt" = ("Could not parse file " ++ "locked.txt").data ∧
    placeholderText "locked.txt" ≠ [] :=
  unreadable_text_placeholder_c7 "locked.txt" "root" 3 2 (by rfl)

theorem appendBatches_fail_at (o : Oracle) (page : Nat) :
    ∀ (bs : List (List Block)) (j k : Nat) (hj : j < bs.length),
    o (k + j) = false → (∀ i, i < j → o (k + i) = true) →
    appendBatches o page bs k =
      ((bs.take j).map (fun b => Event.append page b true) ++
        [Event.append page (bs.get ⟨j, hj⟩) false], k + j + 1, false) := by
  intro bs
  induction bs with
  | nil =>
      intro j k hj _ _
      simp at hj
  | cons b rest ih =>
      intro j k hj hfail hpre
      cases j with
      | zero =>
          unfold appendBatches
          rw [if_neg (by simpa using hfail)]
          simp
      | succ j2 =>
          have h0 : o k = true := by
            have := hpre 0 (by omega)
            simpa using this
          have hrec := ih j2 (k + 1) (by simpa using hj)
            (by rw [show k + 1 + j2 = k + (j2 + 1) from by omega]; exact hfail)
            (fun i hi => by
              rw [show k + 1 + i = k + (i + 1) from by omega]
              exact hpre (i + 1) (by omega))
          unfold appendBatches
          rw [if_pos h0, hrec]
          simp only [List.take_succ_cons, List.map_cons, List.cons_append,
            List.get_cons_succ]
          have e : k + 1 + j2 + 1 = k + (j2 + 1) + 1 := by omega
          rw [e]

/-- **C8** (append-batch failure handling, `append_text_block` lines 91-104
and sync lines 186-191): if the `j`-th batch call for an entry fails after
`j` successful ones, the append loop submits exactly the first `j` batches
and the failed one — no later batch is ever attempted — and the exception is
caught at the entry boundary: processing a file entry never aborts the run,
so the engine moves on to the next sibling (possibly leaving partial content
on the page). -/
theorem batch_failure_stops_entry_c8 (o : Oracle) (page : Nat)
    (bs : List (List Block)) (j k : Nat) (hj : j < bs.length)
    (hfail : o (k + j) = false) (hpre : ∀ i, i < j → o (k + i) = true) :
    appendBatches o page bs k =
      ((bs.take j).map (fun b => Event.append page b true) ++
        [Event.append page (bs.get ⟨j, hj⟩) false], k + j + 1, false) ∧
    (∀ (o2 : Oracle) (c : Option (List Char)) (p : String) (pr : Nat) (it : String)
      (k2 : Nat), (syncItem o2 (FSNode.file c) p pr it k2).2.2 = false) := by
  refine ⟨appendBatches_fail_at o page bs j k hj hfail hpre, ?_⟩
  intro o2 c p pr it k2
  by_cases hext : isTextExt (splitext it).2 = true
  · by_cases hok : o2 k2 = true
    · rw [syncItem_text_ok hext hok]
    · rw [syncItem_text_fail hext (by simpa using hok)]
  · have hext2 : isTextExt (splitext it).2 = false := by simpa using hext
    by_cases hok : o2 k2 = true
    · rw [syncItem_file_ok hext2 hok]
    · rw [syncItem_file_fail hext2 (by simpa using hok)]

/-- Witness for C8: three one-block batches, the second call fails, so batch
three is never attempted; and a file entry's processing reports no abort. -/
theorem batch_failure_stops_entry_c8_witness :
    appendBatches (fun n => n == 0) 9
        [[Block.file "u"], [Block.file "v"], [Block.file "w"]] 0 =
      (([[Block.file "u"]].map (fun b => Event.append 9 b true)) ++
        [Event.append 9 [Block.file "v"] false], 2, false) ∧
    (∀ (o2 : Oracle) (c : Option (List Char)) (p : String) (pr : Nat) (it : String)
      (k2 : Nat), (syncItem o2 (FSNode.file c) p pr it k2).2.2 = false) := by
  have h := batch_failure_stops_entry_c8 (fun n => n == 0) 9
    [[Block.file "u"], [Block.file "v"], [Block.file "w"]] 1 0 (by decide) rfl
    (fun i hi => by
      have : i = 0 := by omega
      rw [this]
      rfl)
  exact ⟨h.1, h.2⟩

/-- **C9** (opaque-file leaves, `append_file_block` lines 106-137 and sync
lines 192-198): a file that is not text-classified gets a page titled with
its stem (extension stripped); on create success exactly one single-block
batch is appended, holding one external file block whose URL is
`https://example.com/files/<basename>`; on create failure the entry is
skipped after the one failed call; in both cases the abort flag stays false,
so traversal moves on. -/
theorem opaque_leaf_external_url_c9 (o : Oracle) (path item : String)
    (parent k : Nat) (c : Option (List Char))
    (hext : isTextExt (splitext item).2 = false) :
    (o k = true →
      syncItem o (FSNode.file c) (pathJoin path item) parent item k =
        (Event.create parent (splitext item).1 true ::
            (appendFileBlock o k (pathJoin path item) (k + 1)).1,
          (appendFileBlock o k (pathJoin path item) (k + 1)).2.1, false)) ∧
    (appendFileBlock o k (pathJoin path item) (k + 1)).1 =
      [Event.append k [Block.file (fileUrl (pathJoin path item))] (o (k + 1))] ∧
    fileUrl (pathJoin path item) =
      "https://example.com/files/" ++ basename (pathJoin path item) ∧
    (o k = false →
      syncItem o (FSNode.file c) (pathJoin path item) parent item k =
        ([Event.create parent (splitext item).1 false], k + 1, false)) := by
  refine ⟨?_, ?_, rfl, ?_⟩
  · intro hok
    exact syncItem_file_ok hext hok c _ parent
  · unfold appendFileBlock
    by_cases h : o (k + 1) = true
    · rw [if_pos h, h]
    · rw [if_neg h]
      rw [Bool.not_eq_true] at h
      rw [h]
  · intro hfail
    exact syncItem_file_fail hext hfail c _ parent

/-- Witness for C9 at the spec's scenario file `photo.png`. -/
theorem opaque_leaf_external_url_c9_witness :
    (oTrue 4 = true →
      syncItem oTrue (FSNode.file (some [])) (pathJoin "imgs" "photo.png") 2
          "photo.png" 4 =
        (Event.create 2 (splitext "photo.png").1 true ::
            (appendFileBlock oTrue 4 (pathJoin "imgs" "photo.png") 5).1,
          (appendFileBlock oTrue 4 (pathJoin "imgs" "photo.png") 5).2.1, false)) ∧
    (appendFileBlock oTrue 4 (pathJoin "imgs" "photo.png") 5).1 =
      [Event.append 4 [Block.file (fileUrl (pathJoin "imgs" "photo.png"))] (oTrue 5)] ∧
    fileUrl (pathJoin "imgs" "photo.png") =
      "https://example.com/files/" ++ basename (pathJoin "imgs" "photo.png") ∧
    (oTrue 4 = false →
      syncItem oTrue (FSNode.file (some [])) (pathJoin "imgs" "photo.png") 2
          "photo.png" 4 =
        ([Event.create 2 (splitext "photo.png").1 false], 5, false)) :=
  opaque_leaf_external_url_c9 oTrue "imgs" "photo.png" 2 4 (some []) (by rfl)

theorem rfindDot_none : ∀ {l : List Char}, '.' ∉ l → rfindDot l = none := by
  intro l
  induction l with
  | nil =>
      intro _
      rfl
  | cons c rest ih =>
      intro h
      have h1 : '.' ∉ rest := fun hm => h (List.mem_cons_of_mem c hm)
      have h2 : (c == '.') = false := by
        have : ¬ c = '.' := fun he => h (he ▸ List.mem_cons_self c rest)
        simpa using this
      unfold rfindDot
      rw [ih h1, h2]
      rfl

/-- **C10** (extension-less names, lines 175-195): a non-hidden regular file
whose name contains no dot splits into the whole name and an empty extension;
the empty extension is not a recognised text extension, so the entry is
classified as an opaque-file leaf, and the created page's title is the entire
file name. -/
theorem no_extension_opaque_c10 (o : Oracle) (path : String) (parent k : Nat)
    (c : Option (List Char)) (item : String) (hnodot : '.' ∉ item.data)
    (hok : o k = true) :
    splitext item = (item, "") ∧
    classify (FSNode.file c) item = NodeClass.opaqueLeaf ∧
    createTitles (syncItem o (FSNode.file c) (pathJoin path item) parent item k).1 =
      [item] := by
  have hsplit : splitext item = (item, "") := by
    unfold splitext
    rw [rfindDot_none hnodot]
  have hext : isTextExt (splitext item).2 = false := by
    rw [hsplit]
    rfl
  refine ⟨hsplit, ?_, ?_⟩
  · unfold classify
    rw [hext]
    rfl
  · rw [syncItem_file_ok hext hok, createTitles_cons_create,
      createTitles_appendFileBlock, hsplit]

/-- Witness for C10 at `Makefile`. -/
theorem no_extension_opaque_c10_witness :
    splitext "Makefile" = ("Makefile", "") ∧
    classify (FSNode.file (some [])) "Makefile" = NodeClass.opaqueLeaf ∧
    createTitles (syncItem oTrue (FSNode.file (some []))
        (pathJoin "root" "Makefile") 0 "Makefile" 0).1 = ["Makefile"] :=
  no_extension_opaque_c10 oTrue "root" 0 0 (some []) "Makefile" (by decide) rfl

end NotionFolderIterator
